import Mathlib

/-!
Verification of the MemeMind RAG backend against its natural-language
specification.  Shallow embedding: the relevant Python functions of the
repository are translated into executable Lean definitions (strings become
`List Char`, fallible code returns `Except`), and the spec claims are proved
or refuted about those definitions.
-/

namespace MemeMind

/-! ## Python `range(0, stop, step)` and the chunking loop

Embeds the chunk loop of `_execute_document_processing_async`
(src/app/tasks/utils/doc_process.py, step 5).  The LangChain splitter result
there is immediately overwritten: the effective splitter is

    chunks_texts_list = []
    if len(raw_text) > chunk_size:
        for i in range(0, len(raw_text), chunk_size - chunk_overlap):
            chunks_texts_list.append(raw_text[i : i + chunk_size])
    elif raw_text:
        chunks_texts_list.append(raw_text)
-/

/-- Model of Python `range(0, stop, step)` for `step > 0` (Python raises
`ValueError` on `step = 0`; that case is excluded by the `overlap < size`
hypothesis wherever this is used). -/
def pythonRange (stop step : Nat) : List Nat :=
  if hc : 0 < step ∧ 0 < stop then
    0 :: (pythonRange (stop - step) step).map (fun x => x + step)
  else
    []
termination_by stop
decreasing_by omega

theorem pythonRange_eq_nil (step : Nat) : pythonRange 0 step = [] := by
  rw [pythonRange]
  simp

theorem pythonRange_pos {stop step : Nat} (hstep : 0 < step) (hstop : 0 < stop) :
    pythonRange stop step = 0 :: (pythonRange (stop - step) step).map (fun x => x + step) := by
  rw [pythonRange]
  simp [hstep, hstop]

/-- Model of `raw_text[i : i + size]` on the character stream. -/
def slice (s : List Char) (i size : Nat) : List Char :=
  (s.drop i).take size

/-- Embedded chunk loop body: the list of slices taken at the offsets
produced by `range(0, len(raw_text), stride)`. -/
def streamChunks (size stride : Nat) (s : List Char) : List (List Char) :=
  (pythonRange s.length stride).map (fun i => slice s i size)

/-- Embedding of the effective text splitter of
`_execute_document_processing_async` (doc_process.py step 5), with
`stride = chunk_size - chunk_overlap`. -/
def splitText (size overlap : Nat) (s : List Char) : List (List Char) :=
  if size < s.length then
    streamChunks size (size - overlap) s
  else if s.isEmpty then
    []
  else
    [s]

theorem streamChunks_nil (size stride : Nat) : streamChunks size stride [] = [] := by
  simp [streamChunks, pythonRange_eq_nil]

theorem streamChunks_cons {s : List Char} (size : Nat) {stride : Nat}
    (hstride : 0 < stride) (hs : s ≠ []) :
    streamChunks size stride s = s.take size :: streamChunks size stride (s.drop stride) := by
  have hlen : 0 < s.length := List.length_pos.mpr hs
  unfold streamChunks
  rw [pythonRange_pos hstride hlen]
  simp only [List.map_cons, List.map_map]
  refine congrArg₂ List.cons ?_ ?_
  · simp [slice]
  · rw [List.length_drop]
    apply List.map_congr_left
    intro i _
    simp [slice, Function.comp, List.drop_drop]
    rw [Nat.add_comm]

theorem pythonRange_mem_lt {step : Nat} (hstep : 0 < step) :
    ∀ n stop, stop ≤ n → ∀ x ∈ pythonRange stop step, x < stop := by
  intro n
  induction n with
  | zero =>
    intro stop hstop x hx
    have h0 : stop = 0 := Nat.le_zero.mp hstop
    subst h0
    rw [pythonRange_eq_nil] at hx
    cases hx
  | succ n ih =>
    intro stop hstop x hx
    rcases Nat.eq_zero_or_pos stop with h0 | hpos
    · subst h0; rw [pythonRange_eq_nil] at hx; cases hx
    · rw [pythonRange_pos hstep hpos] at hx
      rw [List.mem_cons] at hx
      rcases hx with hx | hx
      · omega
      · simp only [List.mem_map] at hx
        obtain ⟨y, hy, rfl⟩ := hx
        have hylt := ih (stop - step) (by omega) y hy
        omega

theorem pythonRange_getElemQ {step : Nat} (hstep : 0 < step) :
    ∀ n stop, stop ≤ n → ∀ k, k < (pythonRange stop step).length →
      (pythonRange stop step)[k]? = some (k * step) := by
  intro n
  induction n with
  | zero =>
    intro stop hstop k hk
    have h0 : stop = 0 := Nat.le_zero.mp hstop
    subst h0
    rw [pythonRange_eq_nil] at hk
    simp at hk
  | succ n ih =>
    intro stop hstop k hk
    rcases Nat.eq_zero_or_pos stop with h0 | hpos
    · subst h0; rw [pythonRange_eq_nil] at hk; simp at hk
    · rw [pythonRange_pos hstep hpos] at hk ⊢
      rcases k with _ | k
      · simp
      · rw [List.getElem?_cons_succ, List.getElem?_map]
        have hk4 : k < (pythonRange (stop - step) step).length := by
          simpa using hk
        rw [ih (stop - step) (by omega) k hk4]
        exact congrArg some (by ring)

theorem pythonRange_get {step : Nat} (hstep : 0 < step) (stop : Nat) (k : Nat)
    (hk : k < (pythonRange stop step).length) :
    (pythonRange stop step).get ⟨k, hk⟩ = k * step := by
  have h := pythonRange_getElemQ hstep stop stop (Nat.le_refl stop) k hk
  rw [List.getElem?_eq_getElem hk] at h
  simpa using h

/-- Reconstruction of the claim: the first chunk, followed by the portion of
each subsequent chunk after its first `overlap` characters. -/
def reconstructText (overlap : Nat) : List (List Char) → List Char
  | [] => []
  | c :: rest => c ++ (rest.map (List.drop overlap)).flatten

theorem streamChunks_drop_join {size overlap : Nat} (hov : overlap < size) :
    ∀ n (s : List Char), s.length ≤ n →
      ((streamChunks size (size - overlap) s).map (List.drop overlap)).flatten = s.drop overlap := by
  intro n
  induction n with
  | zero =>
    intro s hs
    have h0 : s = [] := List.eq_nil_of_length_eq_zero (Nat.le_zero.mp hs)
    subst h0
    simp [streamChunks_nil]
  | succ n ih =>
    intro s hs
    rcases List.eq_nil_or_concat s with h0 | _
    · subst h0; simp [streamChunks_nil]
    · have hne : s ≠ [] := by
        rintro rfl
        simp_all
      rw [streamChunks_cons size (by omega) hne]
      simp only [List.map_cons, List.flatten_cons]
      rw [ih (s.drop (size - overlap)) (by rw [List.length_drop]; omega)]
      rw [List.drop_take, List.drop_drop]
      have h1 : size - overlap + overlap = size := by omega
      have h2 : size - overlap = size - overlap := rfl
      calc (s.drop overlap).take (size - overlap) ++ s.drop (size - overlap + overlap)
          = (s.drop overlap).take (size - overlap) ++ (s.drop overlap).drop (size - overlap) := by
            have h3 : size - overlap + overlap = overlap + (size - overlap) := by omega
            rw [List.drop_drop, h3]
        _ = s.drop overlap := List.take_append_drop _ _

/-- C6: for every input text, the first chunk followed by the portion of each
subsequent chunk after its first `overlap` characters reconstructs the
normalized source text exactly (doc_process.py step 5 chunk loop). -/
theorem claim_C6_reconstruct {size overlap : Nat} (hov : overlap < size) (s : List Char) :
    reconstructText overlap (splitText size overlap s) = s := by
  unfold splitText
  by_cases hlen : size < s.length
  · rw [if_pos hlen]
    have hne : s ≠ [] := by
      intro h0
      subst h0
      simp at hlen
    rw [streamChunks_cons size (by omega) hne]
    show s.take size ++
        ((streamChunks size (size - overlap) (s.drop (size - overlap))).map
          (List.drop overlap)).flatten = s
    rw [streamChunks_drop_join hov (s.drop (size - overlap)).length (s.drop (size - overlap))
      (Nat.le_refl _)]
    rw [List.drop_drop]
    have h1 : size - overlap + overlap = size := by omega
    rw [h1]
    exact List.take_append_drop _ _
  · rw [if_neg hlen]
    by_cases hemp : s.isEmpty
    · rw [if_pos hemp]
      have h0 : s = [] := List.isEmpty_iff.mp hemp
      subst h0
      rfl
    · rw [if_neg hemp]
      show s ++ (([] : List (List Char)).map (List.drop overlap)).flatten = s
      simp

/-- Conjunction of the splitter guarantees of claim C3 about `splitText`:
every chunk has length at most `size`; the chunks are numbered from 0 in
enumeration order; the chunk at index `k` is the slice of the source starting
at offset `k * (size - overlap)` (hence chunks appear in source order); and
whenever two consecutive chunks are each at least `overlap` long, the earlier
one is full-sized and its last `overlap` characters equal the first `overlap`
characters of the later one (exactly `overlap` shared characters of the
final character stream). -/
def SplitterSpec (size overlap : Nat) (s : List Char) : Prop :=
  (∀ c ∈ splitText size overlap s, c.length ≤ size) ∧
  ((splitText size overlap s).enum.map Prod.fst =
    List.range (splitText size overlap s).length) ∧
  (∀ k (hk : k < (splitText size overlap s).length),
    (splitText size overlap s).get ⟨k, hk⟩ = slice s (k * (size - overlap)) size) ∧
  (∀ k (hk1 : k < (splitText size overlap s).length)
      (hk2 : k + 1 < (splitText size overlap s).length),
    overlap ≤ ((splitText size overlap s).get ⟨k, hk1⟩).length →
    overlap ≤ ((splitText size overlap s).get ⟨k + 1, hk2⟩).length →
    ((splitText size overlap s).get ⟨k, hk1⟩).length = size ∧
    ((splitText size overlap s).get ⟨k, hk1⟩).drop (size - overlap) =
      ((splitText size overlap s).get ⟨k + 1, hk2⟩).take overlap)

theorem pythonRange_index_lt {step : Nat} (hstep : 0 < step) (stop : Nat) (k : Nat)
    (hk : k < (pythonRange stop step).length) : k * step < stop := by
  have hget := pythonRange_get hstep stop k hk
  have hmem : (pythonRange stop step).get ⟨k, hk⟩ ∈ pythonRange stop step :=
    List.get_mem _ _ _
  rw [hget] at hmem
  exact pythonRange_mem_lt hstep stop stop (Nat.le_refl _) _ hmem

theorem splitText_get {size overlap : Nat} (hov : overlap < size) (s : List Char)
    (k : Nat) (hk : k < (splitText size overlap s).length) :
    (splitText size overlap s).get ⟨k, hk⟩ = slice s (k * (size - overlap)) size := by
  by_cases hlen : size < s.length
  · have hk2 : k < (pythonRange s.length (size - overlap)).length := by
      simpa [splitText, if_pos hlen, streamChunks] using hk
    have hval := pythonRange_get (by omega : 0 < size - overlap) s.length k hk2
    simp only [List.get_eq_getElem] at hval ⊢
    simp only [splitText, if_pos hlen, streamChunks, List.getElem_map]
    rw [hval]
  · have hks : k < (if s.isEmpty then ([] : List (List Char)) else [s]).length := by
      simpa [splitText, if_neg hlen] using hk
    by_cases hemp : s.isEmpty
    · rw [if_pos hemp] at hks
      simp at hks
    · rw [if_neg hemp] at hks
      have hk0 : k = 0 := by simpa using hks
      subst hk0
      simp only [List.get_eq_getElem, splitText, if_neg hlen, if_neg hemp]
      show s = slice s (0 * (size - overlap)) size
      simp only [Nat.zero_mul, slice, List.drop_zero]
      exact (List.take_of_length_le (by omega)).symm

/-- C3: the effective splitter of doc_process.py step 5 satisfies the length
bound, 0-based source-order numbering, and exact-overlap guarantees, given the
configured `overlap < size` (settings default: size 512, overlap 50). -/
theorem claim_C3_splitter {size overlap : Nat} (hov : overlap < size) (s : List Char) :
    SplitterSpec size overlap s := by
  refine ⟨?_, List.enum_map_fst _, splitText_get hov s, ?_⟩
  · intro c hc
    unfold splitText at hc
    by_cases hlen : size < s.length
    · rw [if_pos hlen] at hc
      simp only [streamChunks, List.mem_map] at hc
      obtain ⟨i, _, rfl⟩ := hc
      simp only [slice]
      exact List.length_take_le _ _
    · rw [if_neg hlen] at hc
      by_cases hemp : s.isEmpty
      · rw [if_pos hemp] at hc
        cases hc
      · rw [if_neg hemp] at hc
        rw [List.mem_singleton] at hc
        subst hc
        omega
  · intro k hk1 hk2 h1 h2
    by_cases hlen : size < s.length
    · have hk2q : k + 1 < (pythonRange s.length (size - overlap)).length := by
        simpa [splitText, if_pos hlen, streamChunks] using hk2
      have hlt : (k + 1) * (size - overlap) < s.length :=
        pythonRange_index_lt (by omega) s.length (k + 1) hk2q
      rw [splitText_get hov s k hk1] at h1 ⊢
      rw [splitText_get hov s (k + 1) hk2] at h2 ⊢
      simp only [slice, List.length_take, List.length_drop] at h1 h2 ⊢
      have hbound : k * (size - overlap) + size ≤ s.length := by
        have hexp : (k + 1) * (size - overlap) = k * (size - overlap) + (size - overlap) := by
          ring
        omega
      constructor
      · omega
      · rw [List.drop_take, List.drop_drop, List.take_take]
        have hmin : min overlap size = overlap := min_eq_left (le_of_lt hov)
        have hso : size - (size - overlap) = overlap := by omega
        rw [hmin, hso]
        congr 1
        ring
    · exfalso
      have hks : k + 1 < (if s.isEmpty then ([] : List (List Char)) else [s]).length := by
        simpa [splitText, if_neg hlen] using hk2
      by_cases hemp : s.isEmpty
      · rw [if_pos hemp] at hks
        simp at hks
      · rw [if_neg hemp] at hks
        simp at hks

/-! ## Embedding input formatting (src/app/core/embedding_qwen.py) -/

/-- Embedding of the input-formatting step of `get_embeddings`
(embedding_qwen.py): in query mode each text is prefixed with the fixed Qwen
template incorporating the task description; in document mode the texts are
passed through unchanged. The model inference itself is external. -/
def instructedTexts (isQueryMode : Bool) (task_description : String)
    (texts : List String) : List String :=
  if isQueryMode then
    texts.map (fun s => "Instruct: " ++ task_description ++ "\nQuery: " ++ s)
  else
    texts

/-- C7: query mode prefixes every text with the fixed instruction template
incorporating the configured instruction; document mode passes the texts to
the model unmodified. -/
theorem claim_C7_instruction_asymmetry (task : String) (texts : List String) :
    ((instructedTexts true task texts).length = texts.length ∧
      ∀ k (hk : k < texts.length) (hk2 : k < (instructedTexts true task texts).length),
        (instructedTexts true task texts).get ⟨k, hk2⟩ =
          "Instruct: " ++ task ++ "\nQuery: " ++ texts.get ⟨k, hk⟩) ∧
    instructedTexts false task texts = texts := by
  refine ⟨⟨by simp [instructedTexts], ?_⟩, rfl⟩
  intro k hk hk2
  simp [instructedTexts]

/-! ## Recall-phase id conversion (src/app/query/service.py) -/

/-- Whitespace characters stripped by Python `str.strip()`
(ASCII subset: space, tab, newline, carriage return, vertical tab, form feed). -/
def isPySpace (c : Char) : Bool :=
  c == ' ' || c == '\t' || c == '\n' || c == '\r' || c == Char.ofNat 11 || c == Char.ofNat 12

/-- Model of Python `str.strip()` with no arguments. -/
def pyStrip (s : List Char) : List Char :=
  ((s.dropWhile isPySpace).reverse.dropWhile isPySpace).reverse

def digitVal (c : Char) : Nat := c.toNat - 48

/-- Digit-run parser for Python `int()`: digits with single underscores
allowed only between digits. -/
def parseDigitsGo (acc : Nat) : List Char → Option Nat
  | [] => some acc
  | c :: rest =>
    if c.isDigit then parseDigitsGo (acc * 10 + digitVal c) rest
    else if c == '_' then
      match rest with
      | [] => none
      | d :: rest2 =>
        if d.isDigit then parseDigitsGo (acc * 10 + digitVal d) rest2 else none
    else none
termination_by l => l.length
decreasing_by all_goals (simp; try omega)

def parseDigitsU : List Char → Option Nat
  | [] => none
  | c :: rest => if c.isDigit then parseDigitsGo (digitVal c) rest else none

/-- Model of Python `int(str)` in base 10 over ASCII strings: surrounding
whitespace is stripped, an optional single sign is allowed, the remainder must
be a nonempty digit run (underscores allowed between digits); anything else
raises `ValueError`, modelled as `none`. -/
def pythonInt (s : List Char) : Option Int :=
  match pyStrip s with
  | '+' :: rest => (parseDigitsU rest).map (fun n => (n : Int))
  | '-' :: rest => (parseDigitsU rest).map (fun n => -(n : Int))
  | t => (parseDigitsU t).map (fun n => (n : Int))

/-- Embedding of the id-conversion loop of `_search_vector_db_async`
(query/service.py): each id string returned by ChromaDB is converted with
`int(str_id)`; a `ValueError` is caught, logged and the id skipped. -/
def collectRetrievedIds : List (List Char) → List Int
  | [] => []
  | sId :: rest =>
    match pythonInt sId with
    | some n => n :: collectRetrievedIds rest
    | none => collectRetrievedIds rest

theorem collectRetrievedIds_eq_filterMap (ids : List (List Char)) :
    collectRetrievedIds ids = ids.filterMap pythonInt := by
  induction ids with
  | nil => rfl
  | cons sId rest ih =>
    rw [List.filterMap_cons]
    cases h : pythonInt sId with
    | none => simp only [collectRetrievedIds, h, ih]
    | some n => simp only [collectRetrievedIds, h, ih]

theorem collectRetrievedIds_skips (ids : List (List Char)) :
    collectRetrievedIds ids =
      collectRetrievedIds (ids.filter (fun s => (pythonInt s).isSome)) := by
  induction ids with
  | nil => rfl
  | cons sId rest ih =>
    cases h : pythonInt sId with
    | none => simp [List.filter_cons, collectRetrievedIds, h, ih]
    | some n => simp [List.filter_cons, collectRetrievedIds, h, ih]

/-- C10: the recall id-conversion is total over arbitrary id strings — a
string that does not parse as a base-10 integer is skipped (the output equals
both the filterMap over the Python int model and the run over only the
parsable strings), and every returned id comes from a successfully parsed
input string. -/
theorem claim_C10_recall_ids_total (ids : List (List Char)) :
    collectRetrievedIds ids = ids.filterMap pythonInt ∧
    collectRetrievedIds ids =
      collectRetrievedIds (ids.filter (fun s => (pythonInt s).isSome)) ∧
    ∀ x ∈ collectRetrievedIds ids, ∃ s ∈ ids, pythonInt s = some x := by
  refine ⟨collectRetrievedIds_eq_filterMap ids, collectRetrievedIds_skips ids, ?_⟩
  intro x hx
  rw [collectRetrievedIds_eq_filterMap] at hx
  exact List.mem_filterMap.mp hx

/-! ## Document parsing error routing (src/app/tasks/utils/doc_parser.py) -/

/-- Content types with an explicit `match content_type` arm in
`parse_and_clean_document`. -/
def supportedContentTypes : List String :=
  ["text/plain", "application/pdf",
   "application/vnd.openxmlformats-officedocument.wordprocessingml.document",
   "application/vnd.openxmlformats-officedocument.presentationml.presentation",
   "application/vnd.openxmlformats-officedocument.spreadsheetml.sheet",
   "text/markdown"]

/-- Message of the `ValueError` raised by the default `case _` arm:
`f"不支持的内容类型: {content_type} (文件名: {original_filename})"`. -/
def unsupportedMessage (contentType filename : String) : List Char :=
  "不支持的内容类型: ".toList ++ contentType.toList ++
    " (文件名: ".toList ++ filename.toList ++ ")".toList

/-- Message of the `ValueError` raised by the enclosing catch-all handler:
`f"文档解析失败: {original_filename}"`. -/
def parseFailureMessage (filename : String) : List Char :=
  "文档解析失败: ".toList ++ filename.toList

/-- Body of the `try` block of `parse_and_clean_document`: route on the
content type; a supported type runs the matching unstructured partitioner,
join and whitespace normalization (external code, passed in as the oracle
`parserOutcome`); an unsupported type raises `ValueError(unsupported_message)`. -/
def routeByContentType (contentType filename : String)
    (parserOutcome : Except (List Char) String) : Except (List Char) String :=
  if supportedContentTypes.contains contentType then parserOutcome
  else Except.error (unsupportedMessage contentType filename)

/-- Embedding of `parse_and_clean_document` (doc_parser.py): the whole body
is wrapped in `try ... except Exception: raise ValueError(f"文档解析失败:
{original_filename}")`, so every failure — including the unsupported-type
`ValueError` raised inside the same `try` — is replaced by the generic
parse-failure message. -/
def parse_and_clean_document (contentType filename : String)
    (parserOutcome : Except (List Char) String) : Except (List Char) String :=
  match routeByContentType contentType filename parserOutcome with
  | Except.ok t => Except.ok t
  | Except.error _ => Except.error (parseFailureMessage filename)

/-- Decidable check that `pat` occurs as a contiguous segment of `l`. -/
def hasSegment (l pat : List Char) : Bool :=
  (List.range (l.length + 1)).any (fun i => (l.drop i).take pat.length == pat)

theorem hasSegment_of_at {l pat : List Char} (i : Nat) (hi : i ≤ l.length)
    (h : (l.drop i).take pat.length = pat) : hasSegment l pat = true := by
  unfold hasSegment
  rw [List.any_eq_true]
  refine ⟨i, List.mem_range.mpr (by omega), ?_⟩
  exact beq_iff_eq.mpr h

theorem hasSegment_append_middle (pre pat post : List Char) :
    hasSegment (pre ++ (pat ++ post)) pat = true := by
  apply hasSegment_of_at pre.length
  · simp
  · rw [List.drop_left]
    exact List.take_left pat post

/-- C4 counterexample: for the unsupported content type
`application/x-unknown`, `parse_and_clean_document` raises the generic
parse-failure `ValueError`, whose message does not contain the offending mime
type (the unsupported-type message is swallowed by the catch-all handler). -/
theorem claim_C4_counterexample :
    parse_and_clean_document "application/x-unknown" "a.bin" (Except.ok "x") =
      Except.error (parseFailureMessage "a.bin") ∧
    hasSegment (parseFailureMessage "a.bin") ("application/x-unknown").toList = false := by
  constructor
  · rfl
  · decide

/-- C4 amended: an unrecognized mime type makes `parse_and_clean_document`
fail with a `ValueError` whose message carries the original filename but not
the mime type; the message carrying both filename and mime type is raised by
the inner routing but is replaced by the catch-all wrapper. -/
theorem claim_C4_unsupported_type (contentType filename : String)
    (parserOutcome : Except (List Char) String)
    (h : supportedContentTypes.contains contentType = false) :
    parse_and_clean_document contentType filename parserOutcome =
      Except.error (parseFailureMessage filename) ∧
    routeByContentType contentType filename parserOutcome =
      Except.error (unsupportedMessage contentType filename) ∧
    hasSegment (parseFailureMessage filename) filename.toList = true ∧
    hasSegment (unsupportedMessage contentType filename) contentType.toList = true ∧
    hasSegment (unsupportedMessage contentType filename) filename.toList = true := by
  have hroute : routeByContentType contentType filename parserOutcome =
      Except.error (unsupportedMessage contentType filename) := by
    unfold routeByContentType
    rw [h]
    rfl
  refine ⟨?_, hroute, ?_, ?_, ?_⟩
  · unfold parse_and_clean_document
    rw [hroute]
  · unfold parseFailureMessage
    have := hasSegment_append_middle "文档解析失败: ".toList filename.toList []
    simpa using this
  · unfold unsupportedMessage
    have := hasSegment_append_middle "不支持的内容类型: ".toList contentType.toList
      (" (文件名: ".toList ++ filename.toList ++ ")".toList)
    simpa using this
  · unfold unsupportedMessage
    have := hasSegment_append_middle
      ("不支持的内容类型: ".toList ++ contentType.toList ++ " (文件名: ".toList)
      filename.toList (")".toList)
    simpa using this

theorem claim_C4_unsupported_type_witness :
    supportedContentTypes.contains "application/x-unknown" = false ∧
    parse_and_clean_document "application/x-unknown" "b.doc" (Except.ok "x") =
      Except.error (parseFailureMessage "b.doc") := by
  have h : supportedContentTypes.contains "application/x-unknown" = false := by decide
  exact ⟨h, (claim_C4_unsupported_type "application/x-unknown" "b.doc" (Except.ok "x") h).1⟩

/-! ## Ingestion pipeline after parsing (src/app/tasks/utils/doc_process.py) -/

/-- Observable outcome of the pipeline steps 4-9 of
`_execute_document_processing_async` for one document: the final document
status written through `update_document_processing_info`, its error message,
the chunk texts stored by step 6, and whether the step re-raised an
exception to Celery. -/
structure ProcessOutcome where
  docStatus : String
  errorMessage : Option String
  chunkTexts : List (List Char)
  raised : Bool
deriving DecidableEq

/-- Embedding of steps 4-9 of `_execute_document_processing_async` given the
parsed text `raw`: the `if not raw_text.strip()` guard marks the document
`error` with message "解析后文本内容为空" and returns (no chunks stored, no
exception); otherwise the text is split, the chunks stored, and the
embedding/ChromaDB steps (external services, oracles `embedOk`/`chromaOk`)
either fail — status `error`, exception re-raised — or the document ends
`ready`. -/
def processParsedText (raw : List Char) (size overlap : Nat)
    (embedOk chromaOk : Bool) : ProcessOutcome :=
  if (pyStrip raw).isEmpty then
    { docStatus := "error", errorMessage := some "解析后文本内容为空",
      chunkTexts := [], raised := false }
  else
    let chunks := splitText size overlap raw
    if embedOk then
      if chromaOk then
        { docStatus := "ready", errorMessage := none, chunkTexts := chunks,
          raised := false }
      else
        { docStatus := "error", errorMessage := some "向量存储失败",
          chunkTexts := chunks, raised := true }
    else
      { docStatus := "error", errorMessage := some "向量化失败",
        chunkTexts := chunks, raised := true }

theorem pyStrip_of_all_space {raw : List Char} (h : ∀ c ∈ raw, isPySpace c) :
    pyStrip raw = [] := by
  unfold pyStrip
  have h1 : raw.dropWhile isPySpace = [] := List.dropWhile_eq_nil_iff.mpr h
  rw [h1]
  rfl

/-- C5: a document whose parsed text is empty or whitespace-only ends with
status `error`, an error message indicating empty content, zero chunks
stored, and a normal return (no exception) — a recognized terminal outcome. -/
theorem claim_C5_empty_content (raw : List Char) (size overlap : Nat)
    (embedOk chromaOk : Bool) (h : ∀ c ∈ raw, isPySpace c) :
    processParsedText raw size overlap embedOk chromaOk =
      { docStatus := "error", errorMessage := some "解析后文本内容为空",
        chunkTexts := [], raised := false } := by
  unfold processParsedText
  rw [pyStrip_of_all_space h]
  rfl

theorem claim_C5_empty_content_witness :
    (∀ c ∈ [' ', '\n', '\t'], isPySpace c) ∧
    processParsedText [' ', '\n', '\t'] 512 50 true true =
      { docStatus := "error", errorMessage := some "解析后文本内容为空",
        chunkTexts := [], raised := false } := by
  have h : ∀ c ∈ [' ', '\n', '\t'], isPySpace c := by decide
  exact ⟨h, claim_C5_empty_content [' ', '\n', '\t'] 512 50 true true h⟩

theorem claim_C3_splitter_witness :
    (50 : Nat) < 512 ∧ SplitterSpec 512 50 "hello".toList :=
  ⟨by decide, claim_C3_splitter (by decide) "hello".toList⟩

theorem claim_C6_reconstruct_witness :
    (3 : Nat) < 5 ∧ reconstructText 3 (splitText 5 3 "abcdefg".toList) = "abcdefg".toList :=
  ⟨by decide, claim_C6_reconstruct (by decide) "abcdefg".toList⟩

/-! ## Chunk Store replace rule (ingestion, claim C1)

The persistence layer that doc_process.py step 6 calls
(`TextChunkService.add_chunks_for_document` of module `app.text_chunk.service`,
with its repository) is not present under src/; it is modelled from the spec
below.  The enumeration that tags each chunk with its 0-based sequence number
is in src (doc_process.py step 6). -/

/-- One row of the `text_chunks` table (src/app/models/models.py), restricted
to the columns the replace rule concerns. -/
structure ChunkRow where
  source_document_id : Int
  sequence_in_document : Nat
  chunk_text : List Char
deriving DecidableEq

/-- Embedding of doc_process.py step 6: `enumerate(chunks_texts_list)` builds
one `TextChunkCreate` per chunk with `sequence_in_document = i`. -/
def mkChunkRows (docId : Int) (texts : List (List Char)) : List ChunkRow :=
  texts.enum.map (fun p =>
    { source_document_id := docId, sequence_in_document := p.1, chunk_text := p.2 })

/-- Modelled from the spec: `TextChunkService.add_chunks_for_document`
(module app.text_chunk.service, missing from src/).  Per §3, "chunk set for a
document is fully replaced (old chunks deleted, new chunks inserted) on
reprocessing": the document's old rows are deleted and the new rows inserted. -/
def add_chunks_for_document (store : List ChunkRow) (docId : Int)
    (rows : List ChunkRow) : List ChunkRow :=
  store.filter (fun r => r.source_document_id != docId) ++ rows

/-- Chunk-store write of one ingestion run on a document: split the parsed
text, number the chunks from 0, and replace the document's chunk set. -/
def ingestStoreStep (store : List ChunkRow) (docId : Int) (raw : List Char)
    (size overlap : Nat) : List ChunkRow :=
  add_chunks_for_document store docId (mkChunkRows docId (splitText size overlap raw))

/-- Uniqueness invariant of §3: (document id, sequence number) is unique
across the chunk store. -/
def UniqueDocSeq (store : List ChunkRow) : Prop :=
  store.Pairwise (fun a b =>
    a.source_document_id ≠ b.source_document_id ∨
    a.sequence_in_document ≠ b.sequence_in_document)

theorem mkChunkRows_docId (docId : Int) (texts : List (List Char)) :
    ∀ r ∈ mkChunkRows docId texts, r.source_document_id = docId := by
  intro r hr
  simp only [mkChunkRows, List.mem_map] at hr
  obtain ⟨p, _, rfl⟩ := hr
  rfl

theorem mkChunkRows_seq_map (docId : Int) (texts : List (List Char)) :
    (mkChunkRows docId texts).map (fun r => r.sequence_in_document) =
      List.range texts.length := by
  unfold mkChunkRows
  rw [List.map_map]
  exact List.enum_map_fst texts

theorem filter_mkChunkRows_ne (docId : Int) (texts : List (List Char)) :
    (mkChunkRows docId texts).filter (fun r => r.source_document_id != docId) = [] := by
  rw [List.filter_eq_nil_iff]
  intro r hr
  have := mkChunkRows_docId docId texts r hr
  simp [this]

theorem mkChunkRows_pairwise_seq (docId : Int) (texts : List (List Char)) :
    (mkChunkRows docId texts).Pairwise
      (fun a b => a.sequence_in_document ≠ b.sequence_in_document) := by
  have hnd : ((mkChunkRows docId texts).map (fun r => r.sequence_in_document)).Nodup := by
    rw [mkChunkRows_seq_map]
    exact List.nodup_range _
  rw [List.Nodup, List.pairwise_map] at hnd
  exact hnd

/-- C1: re-running the ingestion chunk-store write on the same document id is
idempotent — the second run produces exactly the store of a single run; the
rows belonging to the document are fully replaced by the freshly numbered
chunk set; and the (document id, sequence number) uniqueness invariant is
preserved for every document. -/
theorem claim_C1_replace_idempotent (store : List ChunkRow) (docId : Int)
    (raw : List Char) (size overlap : Nat) (h : UniqueDocSeq store) :
    ingestStoreStep (ingestStoreStep store docId raw size overlap) docId raw
        size overlap =
      ingestStoreStep store docId raw size overlap ∧
    (ingestStoreStep store docId raw size overlap).filter
        (fun r => r.source_document_id == docId) =
      mkChunkRows docId (splitText size overlap raw) ∧
    UniqueDocSeq (ingestStoreStep store docId raw size overlap) := by
  refine ⟨?_, ?_, ?_⟩
  · unfold ingestStoreStep add_chunks_for_document
    rw [List.filter_append, filter_mkChunkRows_ne]
    rw [List.filter_filter]
    simp only [Bool.and_self, List.append_nil]
  · unfold ingestStoreStep add_chunks_for_document
    rw [List.filter_append]
    have h1 : (store.filter (fun r => r.source_document_id != docId)).filter
        (fun r => r.source_document_id == docId) = [] := by
      rw [List.filter_eq_nil_iff]
      intro r hr
      have := List.of_mem_filter hr
      simp only [bne_iff_ne, ne_eq] at this
      simp [this]
    have h2 : (mkChunkRows docId (splitText size overlap raw)).filter
        (fun r => r.source_document_id == docId) =
        mkChunkRows docId (splitText size overlap raw) := by
      rw [List.filter_eq_self]
      intro r hr
      have := mkChunkRows_docId docId (splitText size overlap raw) r hr
      simp [this]
    rw [h1, h2, List.nil_append]
  · unfold ingestStoreStep add_chunks_for_document UniqueDocSeq
    rw [List.pairwise_append]
    refine ⟨?_, ?_, ?_⟩
    · exact h.sublist (List.filter_sublist store)
    · exact (mkChunkRows_pairwise_seq docId _).imp (fun hab => Or.inr hab)
    · intro a ha b hb
      have hane : a.source_document_id ≠ docId := by
        have := List.of_mem_filter ha
        simpa [bne_iff_ne] using this
      have hbd : b.source_document_id = docId := mkChunkRows_docId docId _ b hb
      exact Or.inl (by rw [hbd]; exact hane)

def sampleChunkStore : List ChunkRow :=
  [{ source_document_id := 2, sequence_in_document := 0, chunk_text := ['x'] }]

theorem claim_C1_replace_idempotent_witness :
    UniqueDocSeq sampleChunkStore ∧
    ingestStoreStep (ingestStoreStep sampleChunkStore 1 "hi".toList 512 50)
        1 "hi".toList 512 50 =
      ingestStoreStep sampleChunkStore 1 "hi".toList 512 50 := by
  have h : UniqueDocSeq sampleChunkStore := by
    unfold UniqueDocSeq sampleChunkStore
    exact List.pairwise_singleton _ _
  exact ⟨h, (claim_C1_replace_idempotent sampleChunkStore 1 "hi".toList 512 50 h).1⟩

/-! ## Document delete paths (claim C2)

The repository contains two `SourceDocumentService.delete_document`
implementations: src/app/services/doc_service.py (local-storage variant) and
src/app/source_doc/service.py (S3 variant).  Each is embedded as the ordered
list of externally visible effects it performs. -/

inductive DeleteStep where
  | lookupChunkIds : DeleteStep
  | vectorDelete : List Int → DeleteStep
  | removeLocalFile : DeleteStep
  | deleteDocumentRow : DeleteStep
  | s3DeleteObject : DeleteStep
deriving DecidableEq

/-- Embedding of `delete_document` of src/app/services/doc_service.py:
look up the chunk ids; if any exist, delete the vectors from ChromaDB by id
(an exception there is caught and logged — `vectorOk` does not alter the
remaining steps); remove the local file when the document is locally stored
and the file exists; finally delete the Document row (cascading to chunks). -/
def delete_document_steps (chunkIds : List Int) (vectorOk : Bool)
    (isLocalAndFileExists : Bool) : List DeleteStep :=
  [DeleteStep.lookupChunkIds] ++
    (if chunkIds.isEmpty then [] else [DeleteStep.vectorDelete chunkIds]) ++
    (if isLocalAndFileExists then [DeleteStep.removeLocalFile] else []) ++
    [DeleteStep.deleteDocumentRow]

/-- Embedding of `delete_document` of src/app/source_doc/service.py: the
Document row is deleted from the database first, then the object is deleted
from S3; there is no vector-index step.  `s3Ok = false` models a
`ClientError` from S3, re-raised as an HTTPException after both effects. -/
def source_doc_delete_document (s3Ok : Bool) : List DeleteStep × Bool :=
  ([DeleteStep.deleteDocumentRow, DeleteStep.s3DeleteObject], !s3Ok)

/-- C2 counterexample: in the source_doc service delete path the relational
row removal is the first effect, not the last — refuting the claim that for
every document delete the Document-row removal always comes last. -/
theorem claim_C2_counterexample :
    ¬ ((source_doc_delete_document true).1.getLast? =
        some DeleteStep.deleteDocumentRow) := by
  decide

/-- C2 amended: the doc_service delete path performs, in order, chunk-id
lookup first, then vector deletion exactly when chunks exist, then local-file
removal, with the Document-row deletion always last and unaffected by a
vector-deletion failure; the source_doc delete path instead deletes the
Document row first and then the S3 object, with no vector-index step. -/
theorem claim_C2_delete_order (chunkIds : List Int) (vectorOk isLocal s3Ok : Bool) :
    (delete_document_steps chunkIds vectorOk isLocal).head? =
      some DeleteStep.lookupChunkIds ∧
    (delete_document_steps chunkIds vectorOk isLocal).getLast? =
      some DeleteStep.deleteDocumentRow ∧
    delete_document_steps chunkIds true isLocal =
      delete_document_steps chunkIds false isLocal ∧
    (DeleteStep.vectorDelete chunkIds ∈ delete_document_steps chunkIds vectorOk isLocal
      ↔ chunkIds ≠ []) ∧
    (source_doc_delete_document s3Ok).1.head? = some DeleteStep.deleteDocumentRow ∧
    DeleteStep.vectorDelete chunkIds ∉ (source_doc_delete_document s3Ok).1 := by
  refine ⟨?_, ?_, rfl, ?_, rfl, by simp [source_doc_delete_document]⟩
  · cases h : chunkIds.isEmpty <;> cases isLocal <;>
      simp [delete_document_steps, h]
  · cases h : chunkIds.isEmpty <;> cases isLocal <;>
      simp [delete_document_steps, h, List.getLast?_append]
  · cases h : chunkIds.isEmpty with
    | true =>
      have : chunkIds = [] := List.isEmpty_iff.mp h
      subst this
      cases isLocal <;> simp [delete_document_steps]
    | false =>
      have : chunkIds ≠ [] := by
        intro h0
        subst h0
        simp at h
      cases isLocal <;> simp [delete_document_steps, h, this]

/-! ## Rerank phase (src/app/core/reranker_qwen.py, src/app/query/service.py) -/

/-- Model of the `TextChunkResponse` rows handed to the reranker, restricted
to the fields the retrieval logic reads. -/
structure TextChunkResponse where
  id : Int
  chunk_text : List Char
deriving DecidableEq

/-- Comparator of `sorted(zip(documents, scores), key=lambda x: x[1],
reverse=True)`: a stable descending sort on the score component. -/
def scoreDesc (a b : TextChunkResponse × ℚ) : Bool :=
  decide (b.2 ≤ a.2)

/-- Embedding of `rerank_documents` (reranker_qwen.py): empty query or empty
candidate list short-circuits to `[]`; otherwise each document is scored by
the cross-encoder (external model, oracle `score`) and the (document, score)
pairs are sorted by descending score with Python's stable sort.  No
truncation happens here. -/
def rerank_documents (query : List Char) (documents : List TextChunkResponse)
    (score : TextChunkResponse → ℚ) : List (TextChunkResponse × ℚ) :=
  if query.isEmpty || documents.isEmpty then []
  else (documents.map (fun d => (d, score d))).mergeSort scoreDesc

/-- Embedding of the rerank phase of `retrieve_relevant_chunks`
(query/service.py step 4): the sorted pairs are truncated with
`reranked_results[:top_k_final_reranked]`. -/
def rerankPhase (query : List Char) (documents : List TextChunkResponse)
    (score : TextChunkResponse → ℚ) (topn : Nat) : List (TextChunkResponse × ℚ) :=
  (rerank_documents query documents score).take topn

def sampleChunk : TextChunkResponse := { id := 1, chunk_text := ['a'] }

/-- C8 counterexample: with the empty query, one candidate and `top_n = 2`,
the rerank phase returns 0 results rather than exactly 1 — `rerank_documents`
short-circuits to `[]` when the query is empty, refuting the claim as stated
for every query. -/
theorem claim_C8_counterexample :
    ¬ ((rerankPhase [] [sampleChunk] (fun _ => (0 : ℚ)) 2).length = 1) := by
  decide

theorem rerank_documents_of_ne {query : List Char}
    (documents : List TextChunkResponse) (score : TextChunkResponse → ℚ)
    (hq : query ≠ []) :
    rerank_documents query documents score =
      (documents.map (fun d => (d, score d))).mergeSort scoreDesc := by
  unfold rerank_documents
  have hqe : query.isEmpty = false := by
    cases query with
    | nil => exact absurd rfl hq
    | cons a l => rfl
  rw [hqe]
  cases hd : documents.isEmpty
  · rfl
  · have : documents = [] := List.isEmpty_iff.mp hd
    subst this
    simp [List.mergeSort]

theorem scoreDesc_trans (a b c : TextChunkResponse × ℚ) :
    scoreDesc a b → scoreDesc b c → scoreDesc a c := by
  unfold scoreDesc
  intro h1 h2
  have h1q := of_decide_eq_true h1
  have h2q := of_decide_eq_true h2
  exact decide_eq_true (le_trans h2q h1q)

theorem scoreDesc_total (a b : TextChunkResponse × ℚ) :
    scoreDesc a b || scoreDesc b a := by
  unfold scoreDesc
  rcases le_total a.2 b.2 with h | h
  · simp [decide_eq_true h]
  · simp [decide_eq_true h]

/-- C8 amended: for every nonempty query (the code returns `[]` when the
query is empty), the rerank phase returns (chunk, score) pairs sorted by
descending score and truncated to `top_n`; in particular with `top_n`
greater than the candidate count it returns exactly all n candidates, fully
ordered by descending score. -/
theorem claim_C8_rerank_sorted (query : List Char)
    (documents : List TextChunkResponse) (score : TextChunkResponse → ℚ)
    (topn : Nat) (hq : query ≠ []) :
    (rerankPhase query documents score topn).Pairwise (fun a b => b.2 ≤ a.2) ∧
    (rerankPhase query documents score topn).length = min topn documents.length ∧
    (documents.length < topn →
      (rerankPhase query documents score topn).length = documents.length ∧
      (rerankPhase query documents score topn).Perm
        (documents.map (fun d => (d, score d)))) := by
  have hr := rerank_documents_of_ne documents score hq
  have hsorted : ((documents.map (fun d => (d, score d))).mergeSort scoreDesc).Pairwise
      (fun a b => b.2 ≤ a.2) := by
    have hs := List.sorted_mergeSort scoreDesc_trans scoreDesc_total
      (documents.map (fun d => (d, score d)))
    exact hs.imp (fun h => of_decide_eq_true h)
  have hlen : ((documents.map (fun d => (d, score d))).mergeSort scoreDesc).length =
      documents.length := by
    rw [List.length_mergeSort, List.length_map]
  refine ⟨?_, ?_, ?_⟩
  · unfold rerankPhase
    rw [hr]
    exact hsorted.sublist (List.take_sublist _ _)
  · unfold rerankPhase
    rw [hr, List.length_take, hlen]
  · intro htop
    have htake : ((documents.map (fun d => (d, score d))).mergeSort scoreDesc).take topn =
        (documents.map (fun d => (d, score d))).mergeSort scoreDesc := by
      apply List.take_of_length_le
      omega
    constructor
    · unfold rerankPhase
      rw [hr, htake, hlen]
    · unfold rerankPhase
      rw [hr, htake]
      exact List.mergeSort_perm _ _

theorem claim_C8_rerank_sorted_witness :
    (['q'] : List Char) ≠ [] ∧
    (rerankPhase ['q'] [sampleChunk] (fun _ => (0 : ℚ)) 3).length =
      min 3 [sampleChunk].length := by
  have hq : (['q'] : List Char) ≠ [] := by decide
  exact ⟨hq, (claim_C8_rerank_sorted ['q'] [sampleChunk] (fun _ => (0 : ℚ)) 3 hq).2.1⟩

/-! ## Retrieval pipeline control flow (src/app/query/service.py) -/

/-- Embedding of `retrieve_relevant_chunks` (query/service.py): every stage
is an oracle for the corresponding external call, and each `except` arm of
the Python function maps to an `Except.error` branch returning `[]`.
`embedRes` is the outcome of `_embed_query_async` (which wraps any failure in
`ValueError`), `searchRes` of `_search_vector_db_async`, `hydrate` of
`get_chunks_by_ids`, and `rerankOk` of the rerank try block. -/
def retrieve_relevant_chunks
    (embedRes : Except (List Char) (List ℚ))
    (searchRes : List ℚ → Except (List Char) (List Int))
    (hydrate : List Int → Except (List Char) (List TextChunkResponse))
    (query : List Char) (score : TextChunkResponse → ℚ) (rerankOk : Bool)
    (topn : Nat) : List TextChunkResponse :=
  match embedRes with
  | Except.error _ => []
  | Except.ok emb =>
    match searchRes emb with
    | Except.error _ => []
    | Except.ok ids =>
      if ids.isEmpty then []
      else
        match hydrate ids with
        | Except.error _ => []
        | Except.ok chunks =>
          if chunks.isEmpty then []
          else if rerankOk then (rerankPhase query chunks score topn).map Prod.fst
          else []

/-- C9: if embedding the query text fails, or the vector-index search fails,
`retrieve_relevant_chunks` returns the empty list instead of propagating the
failure. -/
theorem claim_C9_retrieval_degrades
    (embedRes : Except (List Char) (List ℚ))
    (searchRes : List ℚ → Except (List Char) (List Int))
    (hydrate : List Int → Except (List Char) (List TextChunkResponse))
    (query : List Char) (score : TextChunkResponse → ℚ) (rerankOk : Bool)
    (topn : Nat) :
    (∀ e, embedRes = Except.error e →
      retrieve_relevant_chunks embedRes searchRes hydrate query score rerankOk topn = []) ∧
    (∀ emb e, embedRes = Except.ok emb → searchRes emb = Except.error e →
      retrieve_relevant_chunks embedRes searchRes hydrate query score rerankOk topn = []) := by
  constructor
  · intro e he
    subst he
    rfl
  · intro emb e he hs
    subst he
    simp [retrieve_relevant_chunks, hs]

theorem claim_C9_retrieval_degrades_witness :
    retrieve_relevant_chunks (Except.error "embed failed".toList)
      (fun _ => Except.ok [0]) (fun _ => Except.ok [sampleChunk])
      ['q'] (fun _ => (0 : ℚ)) true 5 = [] ∧
    retrieve_relevant_chunks (Except.ok [(1 : ℚ)])
      (fun _ => Except.error "search failed".toList) (fun _ => Except.ok [sampleChunk])
      ['q'] (fun _ => (0 : ℚ)) true 5 = [] := by
  constructor
  · exact (claim_C9_retrieval_degrades (Except.error "embed failed".toList)
      (fun _ => Except.ok [0]) (fun _ => Except.ok [sampleChunk])
      ['q'] (fun _ => (0 : ℚ)) true 5).1 "embed failed".toList rfl
  · exact (claim_C9_retrieval_degrades (Except.ok [(1 : ℚ)])
      (fun _ => Except.error "search failed".toList) (fun _ => Except.ok [sampleChunk])
      ['q'] (fun _ => (0 : ℚ)) true 5).2 [(1 : ℚ)] "search failed".toList rfl rfl

theorem claim_C2_delete_order_witness :
    (delete_document_steps [5] true true).getLast? =
      some DeleteStep.deleteDocumentRow :=
  (claim_C2_delete_order [5] true true true).2.1

theorem claim_C7_instruction_asymmetry_witness :
    instructedTexts false "T" ["a"] = ["a"] ∧
    (instructedTexts true "T" ["a"]).length = (["a"] : List String).length :=
  ⟨(claim_C7_instruction_asymmetry "T" ["a"]).2,
    (claim_C7_instruction_asymmetry "T" ["a"]).1.1⟩

theorem claim_C10_recall_ids_total_witness :
    collectRetrievedIds ["12".toList, "abc".toList] =
      ["12".toList, "abc".toList].filterMap pythonInt :=
  (claim_C10_recall_ids_total ["12".toList, "abc".toList]).1

end MemeMind
